import Mathlib

/-!
# The emulator core of `src/emu/core.h`

A shallow embedding of the class `Core` (register file, memory stubs and the
program loader) together with the properties its specification states about it.

Conventions of the embedding:

* `word` (`uint32_t`) values are natural numbers below `2 ^ 32`; a conversion to
  `word` is written with an explicit `% 2 ^ 32`.
* `byte` (`char`) values are integers; `char` is taken to be the signed 8-bit
  type (range `-128 .. 127`), as on the usual x86 targets.
* The arrays `gp[32]` and `memory[MEM_SIZE]` are lists; a `Core` object is
  well formed when `gp` has exactly 32 entries. `MEM_SIZE` is an empty macro in
  the source, so the length of `memory` is left free.
* A member function call yields an `Outcome`: it returns, or it runs into
  behaviour that C++ leaves undefined (an index outside `gp`, an overflow of
  the loader's `int` counter, the end of a value-returning function reached
  without a `return` statement). The source has no error reporting of its own,
  so `Outcome` has no constructor for a reported error.
-/

namespace Emu

set_option linter.dupNamespace false

/-- Largest value of the C++ type `int` (32 bits). -/
def INT_MAX : Nat := 2 ^ 31 - 1

/-- The private state of `Core`: `pc`, `hi`, `lo`, the general purpose
registers `gp[32]` and `memory[MEM_SIZE]`. -/
structure Core where
  pc : Nat
  hi : Nat
  lo : Nat
  gp : List Nat
  memory : List Nat
  deriving DecidableEq, Repr

/-- What a call of a member function does: it returns a value, or it reaches
an operation whose behaviour is undefined in C++. -/
inductive Outcome (α : Type) where
  /-- The call runs to its end and hands back `a`. -/
  | returns (a : α)
  /-- The call evaluates `gp[ix]` with `ix` outside the array `gp`. -/
  | gp_out_of_bounds (ix : Nat)
  /-- The call increments an `int` that already holds `INT_MAX`. -/
  | int_overflow
  /-- Control reaches the closing brace of a function declared to return a
  value, with no `return` statement executed; the object is in state `state`
  at that point. What the call hands back, and whether it comes back to its
  caller at all, is undefined. -/
  | falls_off_end (state : Core)
  deriving DecidableEq, Repr

/-- Conversion of a `byte` (`char`) to `word` (`uint32_t`), as performed by the
assignment `gp[reg_num] = new_val`: the value modulo `2 ^ 32`. -/
def byte_to_word (b : Int) : Nat := (b % 2 ^ 32).toNat

/-- Conversion of a `word` argument to the `byte` parameter of `set_reg` or
`put_word`: the low eight bits, read as a signed 8-bit value. -/
def word_to_byte (w : Nat) : Int :=
  if w % 256 < 128 then ((w % 256 : Nat) : Int) else ((w % 256 : Nat) : Int) - 256

/-- The read `gp[ix]`: defined only for an index inside the array. -/
def gp_read (c : Core) (ix : Nat) : Outcome Nat :=
  match c.gp[ix]? with
  | some w => Outcome.returns w
  | none => Outcome.gp_out_of_bounds ix

/-- The write `gp[ix] = w`: defined only for an index inside the array. -/
def gp_write (c : Core) (ix : Nat) (w : Nat) : Outcome Core :=
  if ix < c.gp.length then Outcome.returns { c with gp := c.gp.set ix w }
  else Outcome.gp_out_of_bounds ix

/-- The constructor `Core() { gp[0] = 0; }`, applied to the indeterminate
contents `fresh` of the newly allocated object: only `gp[0]` is assigned. -/
def Core.Core (fresh : Core) : Core := { fresh with gp := fresh.gp.set 0 0 }

/-- The loop `for (int ix = 0; ix < program.size(); ++ix) { }` of
`load_program`, started at counter `ix` with the bytes from `ix` on still to
visit. The body is empty; `++ix` is undefined once `ix` holds `INT_MAX`.
`Outcome.returns c` here means that the loop is left, with the object in
state `c`. -/
def load_program_loop (c : Core) : List Int → Nat → Outcome Core
  | [], _ => Outcome.returns c
  | _ :: rest, ix =>
    if ix + 1 ≤ INT_MAX then load_program_loop c rest (ix + 1)
    else Outcome.int_overflow

/-- `bool load_program(std::vector<byte> program)`: the empty loop over the
image and nothing else. The function is declared `bool` and has no `return`
statement, so once the loop is done control falls off the end of the body:
the call never yields `Outcome.returns`. -/
def load_program (c : Core) (program : List Int) : Outcome Core :=
  match load_program_loop c program 0 with
  | Outcome.returns c' => Outcome.falls_off_end c'
  | Outcome.gp_out_of_bounds ix => Outcome.gp_out_of_bounds ix
  | Outcome.int_overflow => Outcome.int_overflow
  | Outcome.falls_off_end c' => Outcome.falls_off_end c'

/-- `byte get_word(word addr)`: `return 0;`. -/
def get_word (_c : Core) (_addr : Nat) : Outcome Int := Outcome.returns 0

/-- `void put_word(word addr, byte value)`: empty body. The outcome carries the
state of the object after the call. -/
def put_word (c : Core) (_addr : Nat) (_value : Int) : Outcome Core := Outcome.returns c

/-- `word get_reg(word reg_num)`. The range test has an empty body (only the
comment "throw exception or something?"), so control continues after it. -/
def get_reg (c : Core) (reg_num : Nat) : Outcome Nat :=
  let _range_test : Unit := if reg_num < 0 ∨ reg_num ≥ 32 then () else ()
  if reg_num = 0 then Outcome.returns 0
  else gp_read c reg_num

/-- `void set_reg(word reg_num, byte new_val)`. The outcome carries the state
of the object after the call. -/
def set_reg (c : Core) (reg_num : Nat) (new_val : Int) : Outcome Core :=
  if reg_num = 0 then Outcome.returns c
  else gp_write c reg_num (byte_to_word new_val)

/-- One call of a public member function, with its arguments. -/
inductive Op where
  | set_reg (reg_num : Nat) (new_val : Int)
  | get_reg (reg_num : Nat)
  | load_program (program : List Int)
  | get_word (addr : Nat)
  | put_word (addr : Nat) (value : Int)
  deriving DecidableEq, Repr

/-- The state of the object after one public call, when the call returns.
`get_reg` and `get_word` assign nothing, so they hand the state on as it is.
A call of `load_program` never returns (see `load_program`). -/
def exec (c : Core) : Op → Outcome Core
  | Op.set_reg reg_num new_val => set_reg c reg_num new_val
  | Op.get_reg reg_num =>
    match get_reg c reg_num with
    | Outcome.returns _ => Outcome.returns c
    | Outcome.gp_out_of_bounds ix => Outcome.gp_out_of_bounds ix
    | Outcome.int_overflow => Outcome.int_overflow
    | Outcome.falls_off_end c' => Outcome.falls_off_end c'
  | Op.load_program program => load_program c program
  | Op.get_word addr =>
    match get_word c addr with
    | Outcome.returns _ => Outcome.returns c
    | Outcome.gp_out_of_bounds ix => Outcome.gp_out_of_bounds ix
    | Outcome.int_overflow => Outcome.int_overflow
    | Outcome.falls_off_end c' => Outcome.falls_off_end c'
  | Op.put_word addr value => put_word c addr value

/-- A sequence of public calls, one after the other, stopping at the first
call that does not return. -/
def run (c : Core) : List Op → Outcome Core
  | [] => Outcome.returns c
  | op :: ops =>
    match exec c op with
    | Outcome.returns c' => run c' ops
    | Outcome.gp_out_of_bounds ix => Outcome.gp_out_of_bounds ix
    | Outcome.int_overflow => Outcome.int_overflow
    | Outcome.falls_off_end c' => Outcome.falls_off_end c'

/-- A concrete object: `pc = 8`, `gp[1] = 5`, `gp[2] = 7`, every other register
zero, and four words of memory. -/
def sample_core : Core :=
  { pc := 8, hi := 0, lo := 0,
    gp := [0, 5, 7, 0, 0, 0, 0, 0, 0, 0, 0, 0, 0, 0, 0, 0,
           0, 0, 0, 0, 0, 0, 0, 0, 0, 0, 0, 0, 0, 0, 0, 0],
    memory := [0, 0, 0, 0] }

/-- A concrete object whose stored `gp[0]` is not zero (a state the public
interface never produces). -/
def dirty_core : Core :=
  { pc := 0, hi := 0, lo := 0,
    gp := [9, 1, 2, 3, 4, 5, 6, 7, 8, 9, 10, 11, 12, 13, 14, 15,
           16, 17, 18, 19, 20, 21, 22, 23, 24, 25, 26, 27, 28, 29, 30, 31],
    memory := [] }

/-- A sequence of public calls that all return: writes to registers 0 and 3,
a register read, and the two memory calls. -/
def sample_calls : List Op :=
  [Op.set_reg 0 5, Op.set_reg 3 (-1), Op.get_reg 3, Op.put_word 0 1, Op.get_word 0]

/-- The state in which `sample_calls` leaves the object constructed over
`dirty_core`: `gp[0]` is 0 and `gp[3]` holds `0xFFFFFFFF`. -/
def sample_calls_end : Core :=
  { pc := 0, hi := 0, lo := 0,
    gp := [0, 1, 2, 0xFFFFFFFF, 4, 5, 6, 7, 8, 9, 10, 11, 12, 13, 14, 15,
           16, 17, 18, 19, 20, 21, 22, 23, 24, 25, 26, 27, 28, 29, 30, 31],
    memory := [] }

/-- The four bytes of the word `0x20010005` (an add-immediate `$1 = $0 + 5`),
low byte first. -/
def sample_image : List Int := [5, 0, 1, 32]

/-- The object `sample_core` with `pc = 4` in place of `pc = 8`. -/
def sample_core_pc4 : Core := { sample_core with pc := 4 }

/-! ## Shared lemmas -/

theorem load_program_loop_returns (c : Core) (program : List Int) (ix : Nat)
    (h : ix + program.length ≤ INT_MAX) :
    load_program_loop c program ix = Outcome.returns c := by
  induction program generalizing ix with
  | nil => rfl
  | cons b rest ih =>
    have h1 : ix + 1 ≤ INT_MAX := by
      simp only [List.length_cons] at h; omega
    have h2 : ix + 1 + rest.length ≤ INT_MAX := by
      simp only [List.length_cons] at h; omega
    simp [load_program_loop, h1, ih (ix + 1) h2]

theorem load_program_loop_state (c c' : Core) (program : List Int) (ix : Nat)
    (h : load_program_loop c program ix = Outcome.returns c' ∨
      load_program_loop c program ix = Outcome.falls_off_end c') :
    c' = c := by
  induction program generalizing ix with
  | nil =>
    simp only [load_program_loop] at h
    rcases h with h | h
    · cases h; rfl
    · cases h
  | cons b rest ih =>
    simp only [load_program_loop] at h
    split at h
    · exact ih _ h
    · rcases h with h | h <;> cases h

theorem load_program_falls_off_end (c : Core) (program : List Int)
    (h : program.length ≤ INT_MAX) :
    load_program c program = Outcome.falls_off_end c := by
  unfold load_program
  rw [load_program_loop_returns c program 0 (by omega)]

theorem load_program_never_returns (c c' : Core) (program : List Int) :
    load_program c program ≠ Outcome.returns c' := by
  unfold load_program
  split <;> simp

theorem load_program_end_state (c c' : Core) (program : List Int)
    (h : load_program c program = Outcome.falls_off_end c') : c' = c := by
  unfold load_program at h
  split at h
  · rename_i c1 hloop
    cases h
    exact load_program_loop_state c c' program 0 (Or.inl hloop)
  · cases h
  · cases h
  · rename_i c1 hloop
    cases h
    exact load_program_loop_state c c' program 0 (Or.inr hloop)

/-! ## Register zero -/

/-- C1. Register zero invariant: in every state of the object, also one whose
stored `gp[0]` is not zero, `get_reg(0)` returns 0; and for every value,
`set_reg(0, value)` returns and `get_reg(0)` returns 0 afterwards. -/
theorem get_reg_zero_is_zero (c : Core) (value : Int) :
    get_reg c 0 = Outcome.returns 0 ∧
    ∃ c', set_reg c 0 value = Outcome.returns c' ∧ get_reg c' 0 = Outcome.returns 0 := by
  refine ⟨by simp [get_reg], c, by simp [set_reg], by simp [get_reg]⟩

/-! ## Writing and reading back a register -/

theorem byte_to_word_lt (b : Int) : byte_to_word b < 2 ^ 32 := by
  unfold byte_to_word; omega

theorem set_then_get (c : Core) (reg_num : Nat) (new_val : Int)
    (hgp : c.gp.length = 32) (h1 : 1 ≤ reg_num) (h31 : reg_num ≤ 31) :
    set_reg c reg_num new_val =
      Outcome.returns { c with gp := c.gp.set reg_num (byte_to_word new_val) } ∧
    get_reg { c with gp := c.gp.set reg_num (byte_to_word new_val) } reg_num =
      Outcome.returns (byte_to_word new_val) := by
  have hne : reg_num ≠ 0 := by omega
  have hlt : reg_num < c.gp.length := by omega
  constructor
  · simp [set_reg, hne, gp_write, hlt]
  · simp [get_reg, hne, gp_read, hlt]

/-- C2 (as stated, refuted). Passing the word 256 to `set_reg(1, ...)` narrows
it to the byte 0, so `get_reg(1)` afterwards returns 0 and not 256. -/
theorem set_reg_word_256_reads_back_0 :
    ∃ c', set_reg sample_core 1 (word_to_byte 256) = Outcome.returns c' ∧
      get_reg c' 1 = Outcome.returns 0 ∧ get_reg c' 1 ≠ Outcome.returns 256 := by
  refine ⟨{ sample_core with gp := sample_core.gp.set 1 0 }, by decide, by decide, by decide⟩

/-- C2 (amended). For every register 1..31 and every 32-bit word `value`,
`set_reg(reg_num, value)` returns and `get_reg(reg_num)` then returns `value`
narrowed to a byte and converted back to a word; that result is `value` itself
exactly when `value` lies in `0..127` or in `0xFFFFFF80..0xFFFFFFFF`. -/
theorem set_reg_word_round_trip (c : Core) (reg_num value : Nat)
    (hgp : c.gp.length = 32) (h1 : 1 ≤ reg_num) (h31 : reg_num ≤ 31)
    (hv : value < 2 ^ 32) :
    ∃ c', set_reg c reg_num (word_to_byte value) = Outcome.returns c' ∧
      get_reg c' reg_num = Outcome.returns (byte_to_word (word_to_byte value)) ∧
      (byte_to_word (word_to_byte value) = value ↔ value ≤ 127 ∨ 0xFFFFFF80 ≤ value) := by
  obtain ⟨hset, hget⟩ := set_then_get c reg_num (word_to_byte value) hgp h1 h31
  refine ⟨_, hset, hget, ?_⟩
  unfold byte_to_word word_to_byte
  split <;> omega

/-- C2 (amended) at a concrete input: register 3 of `sample_core` and the word
`0xFFFFFF85`, which survives the narrowing. -/
theorem set_reg_word_round_trip_witness :
    sample_core.gp.length = 32 ∧ (1 : Nat) ≤ 3 ∧ (3 : Nat) ≤ 31 ∧ (0xFFFFFF85 : Nat) < 2 ^ 32 ∧
    ∃ c', set_reg sample_core 3 (word_to_byte 0xFFFFFF85) = Outcome.returns c' ∧
      get_reg c' 3 = Outcome.returns (byte_to_word (word_to_byte 0xFFFFFF85)) ∧
      (byte_to_word (word_to_byte 0xFFFFFF85) = 0xFFFFFF85 ↔
        0xFFFFFF85 ≤ 127 ∨ 0xFFFFFF80 ≤ 0xFFFFFF85) :=
  ⟨by decide, by decide, by decide, by decide,
    set_reg_word_round_trip sample_core 3 0xFFFFFF85 (by decide) (by decide) (by decide)
      (by decide)⟩

/-- C9. Width of a register write: for every register 1..31 and every byte
`new_val` (a signed `char`, `-128..127`), `set_reg` returns and stores, and
`get_reg` then returns, the word `w = new_val mod 2 ^ 32`: its low 8 bits are
the bits of `new_val`, its upper 24 bits are all ones when `new_val` is negative
and all zeros otherwise, so `w` lies in `0..127` or `0xFFFFFF80..0xFFFFFFFF`. -/
theorem set_reg_stores_sign_extended_byte (c : Core) (reg_num : Nat) (new_val : Int)
    (hgp : c.gp.length = 32) (h1 : 1 ≤ reg_num) (h31 : reg_num ≤ 31)
    (hlo : -128 ≤ new_val) (hhi : new_val ≤ 127) :
    ∃ c' w, set_reg c reg_num new_val = Outcome.returns c' ∧
      c'.gp[reg_num]? = some w ∧
      get_reg c' reg_num = Outcome.returns w ∧
      (w : Int) = new_val % 2 ^ 32 ∧
      ((w % 256 : Nat) : Int) = new_val % 256 ∧
      w / 256 = (if new_val < 0 then 2 ^ 24 - 1 else 0) ∧
      (w ≤ 127 ∨ (0xFFFFFF80 ≤ w ∧ w ≤ 0xFFFFFFFF)) := by
  obtain ⟨hset, hget⟩ := set_then_get c reg_num new_val hgp h1 h31
  have hlt : reg_num < c.gp.length := by omega
  refine ⟨_, byte_to_word new_val, hset, ?_, hget, ?_, ?_, ?_, ?_⟩
  · simp [hlt]
  · unfold byte_to_word; omega
  · unfold byte_to_word; omega
  · unfold byte_to_word; split <;> omega
  · unfold byte_to_word; omega

/-- C9 at a concrete input: register 4 of `sample_core` and the byte `-3`. -/
theorem set_reg_stores_sign_extended_byte_witness :
    sample_core.gp.length = 32 ∧ (1 : Nat) ≤ 4 ∧ (4 : Nat) ≤ 31 ∧
    (-128 : Int) ≤ -3 ∧ (-3 : Int) ≤ 127 ∧
    ∃ c' w, set_reg sample_core 4 (-3) = Outcome.returns c' ∧
      c'.gp[4]? = some w ∧
      get_reg c' 4 = Outcome.returns w ∧
      (w : Int) = (-3) % 2 ^ 32 ∧
      ((w % 256 : Nat) : Int) = (-3) % 256 ∧
      w / 256 = (if (-3 : Int) < 0 then 2 ^ 24 - 1 else 0) ∧
      (w ≤ 127 ∨ (0xFFFFFF80 ≤ w ∧ w ≤ 0xFFFFFFFF)) :=
  ⟨by decide, by decide, by decide, by decide, by decide,
    set_reg_stores_sign_extended_byte sample_core 4 (-3) (by decide) (by decide) (by decide)
      (by decide) (by decide)⟩

/-! ## Register indices above 31 -/

/-- C3 (the code at the failing input). With `reg_num = 32` the range test of
`get_reg` does nothing and the call goes on to read `gp[32]`, outside the
array: no error is reported and an index outside `0..31` is read. -/
theorem get_reg_32_reads_outside_gp :
    get_reg sample_core 32 = Outcome.gp_out_of_bounds 32 := by
  decide

/-- C4 (the code at the failing input). With `reg_num = 32` the call
`set_reg(32, 1)` goes on to the write `gp[32] = 1`, outside the array: no
error is reported and an index outside `0..31` is written. -/
theorem set_reg_32_writes_outside_gp :
    set_reg sample_core 32 1 = Outcome.gp_out_of_bounds 32 := by
  decide

/-! ## The frame of `set_reg` -/

/-- C5. Frame of `set_reg`: for every register 0..31 and every value the call
returns, and `pc`, `hi`, `lo`, `memory` and every `gp[k]` with `k ≠ reg_num`
are as before (`gp` keeps its 32 entries); with `reg_num = 0` the whole state
is as before. -/
theorem set_reg_frame (c : Core) (reg_num : Nat) (new_val : Int)
    (hgp : c.gp.length = 32) (h31 : reg_num ≤ 31) :
    ∃ c', set_reg c reg_num new_val = Outcome.returns c' ∧
      c'.pc = c.pc ∧ c'.hi = c.hi ∧ c'.lo = c.lo ∧ c'.memory = c.memory ∧
      c'.gp.length = 32 ∧
      (∀ k, k ≠ reg_num → c'.gp[k]? = c.gp[k]?) ∧
      (reg_num = 0 → c' = c) := by
  by_cases h0 : reg_num = 0
  · refine ⟨c, by simp [set_reg, h0], rfl, rfl, rfl, rfl, hgp, fun _ _ => rfl, fun _ => rfl⟩
  · have hlt : reg_num < c.gp.length := by omega
    refine ⟨{ c with gp := c.gp.set reg_num (byte_to_word new_val) },
      by simp [set_reg, h0, gp_write, hlt], rfl, rfl, rfl, rfl, by simp [hgp], ?_,
      fun h => absurd h h0⟩
    intro k hk
    simp [List.getElem?_set_ne (Ne.symm hk)]

/-- C5 at a concrete input: `set_reg(2, 100)` on `sample_core`. -/
theorem set_reg_frame_witness :
    sample_core.gp.length = 32 ∧ (2 : Nat) ≤ 31 ∧
    ∃ c', set_reg sample_core 2 100 = Outcome.returns c' ∧
      c'.pc = sample_core.pc ∧ c'.hi = sample_core.hi ∧ c'.lo = sample_core.lo ∧
      c'.memory = sample_core.memory ∧
      c'.gp.length = 32 ∧
      (∀ k, k ≠ 2 → c'.gp[k]? = sample_core.gp[k]?) ∧
      ((2 : Nat) = 0 → c' = sample_core) :=
  ⟨by decide, by decide, set_reg_frame sample_core 2 100 (by decide) (by decide)⟩

/-! ## The invariant `gp[0] == 0` -/

theorem exec_preserves_gp_zero (c : Core) (op : Op) (c' : Core)
    (hgp : c.gp.length = 32) (h0 : c.gp[0]? = some 0)
    (hexec : exec c op = Outcome.returns c') :
    c'.gp.length = 32 ∧ c'.gp[0]? = some 0 := by
  cases op with
  | set_reg reg_num new_val =>
    simp only [exec, set_reg, gp_write] at hexec
    split at hexec
    · cases hexec; exact ⟨hgp, h0⟩
    · rename_i hne
      split at hexec
      · cases hexec
        refine ⟨by simp [hgp], ?_⟩
        simp only []
        rw [List.getElem?_set_ne hne]
        exact h0
      · cases hexec
  | get_reg reg_num =>
    simp only [exec] at hexec
    split at hexec
    · cases hexec; exact ⟨hgp, h0⟩
    · cases hexec
    · cases hexec
    · cases hexec
  | load_program program =>
    simp only [exec] at hexec
    exact absurd hexec (load_program_never_returns c c' program)
  | get_word addr =>
    simp only [exec, get_word] at hexec
    cases hexec; exact ⟨hgp, h0⟩
  | put_word addr value =>
    simp only [exec, put_word] at hexec
    cases hexec; exact ⟨hgp, h0⟩

theorem run_preserves_gp_zero (ops : List Op) (c c' : Core)
    (hgp : c.gp.length = 32) (h0 : c.gp[0]? = some 0)
    (hrun : run c ops = Outcome.returns c') :
    c'.gp.length = 32 ∧ c'.gp[0]? = some 0 := by
  induction ops generalizing c with
  | nil =>
    simp only [run] at hrun
    cases hrun; exact ⟨hgp, h0⟩
  | cons op ops ih =>
    simp only [run] at hrun
    split at hrun
    · rename_i c1 hexec
      obtain ⟨hgp1, h01⟩ := exec_preserves_gp_zero c op c1 hgp h0 hexec
      exact ih c1 hgp1 h01 hrun
    · cases hrun
    · cases hrun
    · cases hrun

/-- C6. State invariant `gp[0] == 0`: for an object of 32 registers with
arbitrary contents `c`, (1) the constructor leaves `gp[0] == 0`; (2) if
`gp[0] == 0` holds in `c`, it holds (and `gp` keeps its 32 entries) after every
public call that returns, `set_reg`, `get_reg`, `get_word` or `put_word` (a
call of `load_program` does not return, see (4)); (3) it holds in every state
reached from the constructed object by a sequence of public calls; (4) if
`gp[0] == 0` holds in `c`, it holds (and `gp` keeps its 32 entries) in the
state in which `load_program` reaches the end of its body. -/
theorem gp_zero_invariant (c : Core) (hgp : c.gp.length = 32) :
    (Core.Core c).gp[0]? = some 0 ∧
    (c.gp[0]? = some 0 →
      ∀ op c', exec c op = Outcome.returns c' → c'.gp.length = 32 ∧ c'.gp[0]? = some 0) ∧
    (∀ ops c', run (Core.Core c) ops = Outcome.returns c' → c'.gp[0]? = some 0) ∧
    (c.gp[0]? = some 0 →
      ∀ program c', load_program c program = Outcome.falls_off_end c' →
        c'.gp.length = 32 ∧ c'.gp[0]? = some 0) := by
  have hlen : (Core.Core c).gp.length = 32 := by simp [Core.Core, hgp]
  have hzero : (Core.Core c).gp[0]? = some 0 := by
    simp [Core.Core, hgp]
  refine ⟨hzero, fun h0 op c' hexec => exec_preserves_gp_zero c op c' hgp h0 hexec, ?_, ?_⟩
  · intro ops c' hrun
    exact (run_preserves_gp_zero ops _ c' hlen hzero hrun).2
  · intro h0 program c' hload
    rw [load_program_end_state c c' program hload]
    exact ⟨hgp, h0⟩

/-- C6 at a concrete input: the object constructed over `dirty_core`, whose
stored `gp[0]` was 9, the calls `sample_calls` made on it, and a program load
into the state they leave. -/
theorem gp_zero_invariant_witness :
    dirty_core.gp.length = 32 ∧ dirty_core.gp[0]? = some 9 ∧
    (Core.Core dirty_core).gp[0]? = some 0 ∧
    run (Core.Core dirty_core) sample_calls = Outcome.returns sample_calls_end ∧
    sample_calls_end.gp[3]? = some 0xFFFFFFFF ∧ sample_calls_end.gp[0]? = some 0 ∧
    load_program sample_calls_end sample_image = Outcome.falls_off_end sample_calls_end :=
  ⟨by decide, by decide, (gp_zero_invariant dirty_core (by decide)).1, by decide, by decide,
    (gp_zero_invariant dirty_core (by decide)).2.2.1 sample_calls sample_calls_end (by decide),
    by decide⟩

/-! ## The program loader -/

/-- C7 (as stated, refuted). Loading a 4-byte image into `sample_core` (16
bytes of memory) resets nothing: the call runs to the end of the function body
with the state as it was, so `get_reg(1)` is still 5, not 0, and the PC is
still 8; the same load into an object whose PC is 4 leaves the PC at 4, so the
PC is not brought to one fixed load origin. The body ends without a `return`
statement, so the call does not come back with a defined result either. -/
theorem load_program_resets_nothing :
    sample_image.length ≤ 4 * sample_core.memory.length ∧
    load_program sample_core sample_image = Outcome.falls_off_end sample_core ∧
    get_reg sample_core 1 = Outcome.returns 5 ∧ sample_core.pc = 8 ∧
    load_program sample_core_pc4 sample_image = Outcome.falls_off_end sample_core_pc4 ∧
    sample_core_pc4.pc = 4 := by
  decide

/-- C7 (amended). For every program image of at most `INT_MAX` bytes,
`load_program` runs to the end of its body without assigning the PC or any
register: in the state reached there the PC is the PC before the call,
`get_reg(r)` gives for every `r` what it gave before the call, and
`get_reg(0)` is 0. -/
theorem load_program_keeps_pc_and_registers (c : Core) (program : List Int)
    (hsize : program.length ≤ INT_MAX) :
    ∃ c', load_program c program = Outcome.falls_off_end c' ∧
      c'.pc = c.pc ∧ c'.gp = c.gp ∧
      (∀ r, get_reg c' r = get_reg c r) ∧
      get_reg c' 0 = Outcome.returns 0 := by
  refine ⟨c, load_program_falls_off_end c program hsize, rfl, rfl, fun _ => rfl, ?_⟩
  simp [get_reg]

/-- C7 (amended) at a concrete input: `sample_image` loaded into `sample_core`. -/
theorem load_program_keeps_pc_and_registers_witness :
    sample_image.length ≤ INT_MAX ∧
    ∃ c', load_program sample_core sample_image = Outcome.falls_off_end c' ∧
      c'.pc = sample_core.pc ∧ c'.gp = sample_core.gp ∧
      (∀ r, get_reg c' r = get_reg sample_core r) ∧
      get_reg c' 0 = Outcome.returns 0 :=
  ⟨by decide, load_program_keeps_pc_and_registers sample_core sample_image (by decide)⟩

/-! ## The memory stubs -/

/-- C8 (as stated, refuted). `sample_core` has 4 words (16 bytes) of memory;
the reads at the addresses 4, 16 and `0xFFFFFFFF`, all at or past its end,
return the value 0 instead of failing. -/
theorem get_word_past_end_returns_0 :
    sample_core.memory.length = 4 ∧
    get_word sample_core 4 = Outcome.returns 0 ∧
    get_word sample_core 16 = Outcome.returns 0 ∧
    get_word sample_core 0xFFFFFFFF = Outcome.returns 0 := by
  decide

/-- C8 (amended). For every address `vaddr` at or past the end of memory,
`get_word` returns the byte 0: it makes no bounds check and reports no
failure. -/
theorem get_word_past_end (c : Core) (vaddr : Nat) (_hv : c.memory.length ≤ vaddr) :
    get_word c vaddr = Outcome.returns 0 := by
  rfl

/-- C8 (amended) at a concrete input: address 16 on `sample_core`. -/
theorem get_word_past_end_witness :
    sample_core.memory.length ≤ 16 ∧ get_word sample_core 16 = Outcome.returns 0 :=
  ⟨by decide, get_word_past_end sample_core 16 (by decide)⟩

/-- C10. Memory writes are not observable: in every state and at every
address `get_word` returns 0; `put_word(addr, v)` returns with the whole state
as it was, and `get_word(addr)` returns 0 right after it. -/
theorem put_word_not_observable (c : Core) (addr : Nat) (v : Int) :
    get_word c addr = Outcome.returns 0 ∧
    ∃ c', put_word c addr v = Outcome.returns c' ∧ c' = c ∧
      get_word c' addr = Outcome.returns 0 := by
  exact ⟨rfl, c, rfl, rfl, rfl⟩

end Emu
